import Mathlib

/-!
Shallow embedding of `src/StreamBuffer.js` (and the parts of
`src/StreamBufferReader.js` needed by the read surfaces).

Conventions of the embedding:
* JS `Buffer`s become `List Nat` (byte lists).
* JS `Infinity` / `null` sentinels on numeric slots become `Option Nat`
  (`none` = Infinity for lengths/end positions, `none` = `null` for the seek).
* Thrown JS errors become `Except Err` results; the distinct `Error(...)`
  messages of the source become distinct `Err` constructors.
* The promise-based wait/wake protocol is modelled by terminal "suspended"
  results: a run of `getBuffer` is followed until it finishes, throws, or
  suspends awaiting a wake-up; `getBufferAwaitOffset` models one wake-up of
  the offset-resolution wait loop.
* The unbounded `while` loop of `getBuffer` is given explicit fuel, consumed
  once per iteration; `GBResult.outOfFuel` marks exhaustion and is never the
  code's own behaviour.
-/

/-- The distinct errors thrown by `StreamBuffer.js`, one constructor per
`new Error(...)` message, plus `custom` for caller-supplied teardown errors
and `nullError` for the JS value `null` (the `_error` field before any
`_destroy` stored an error, unreachable through the API). -/
inductive Err where
  /-- `Error('chunk-offset out of bounds!')` in `_getNextChunk`. -/
  | outOfBounds
  /-- `Error('chunk gone!')` in `_getNextChunk`. -/
  | chunkGone
  /-- `Error('maxBufferSize exceeded!')` in `getBuffer`. -/
  | maxBufferSizeExceeded
  /-- `Error('Stream destroyed!')`, the default stored by `_destroy`. -/
  | streamDestroyed
  /-- `Error('out of bounds')` used by `getStream` to pre-fail a reader. -/
  | streamOutOfBounds
  /-- the JS `null` initially held by `this._error`. -/
  | nullError
  /-- an arbitrary caller-supplied error passed to `destroy(error)`. -/
  | custom (n : Nat)
  deriving DecidableEq, Repr

/-- A ledger entry: the source pushes `{ chunk, end, start }` objects onto
`this._chunks` (`_appendChunk`). -/
structure Chunk where
  chunk : List Nat
  «end» : Nat
  start : Nat
  deriving DecidableEq, Repr

/-- The mutable state of a `StreamBuffer` instance: the fields set up by the
constructor.  `_maxSize` and `_maxBufferSize` are `none` for `Infinity`;
`_seek` is `none` for the JS `null` sentinel; `_error` is `none` for JS
`null`.  The promise fields (`_newChunksAvailable*`) carry no data and are
not part of the state. -/
structure StreamBuffer where
  _chunks : List Chunk
  _ended : Bool
  _destroyed : Bool
  _error : Option Err
  _seek : Option Nat
  _maxSize : Option Nat
  _maxBufferSize : Option Nat
  deriving DecidableEq, Repr

/-- `a < b` where `b : Option Nat` is `none` for `Infinity`. -/
def ltInfB (a : Nat) : Option Nat → Bool
  | none => true
  | some b => decide (a < b)

/-- `a > b` where `b : Option Nat` is `none` for `Infinity` (always false). -/
def gtInfB (a : Nat) : Option Nat → Bool
  | none => false
  | some b => decide (b < a)

/-- `a ≤ b` where `b : Option Nat` is `none` for `Infinity` (always true);
used in theorem statements. -/
def leInf (a : Nat) : Option Nat → Prop
  | none => True
  | some b => a ≤ b

instance (a : Nat) (o : Option Nat) : Decidable (leInf a o) :=
  match o with
  | none => .isTrue trivial
  | some b => inferInstanceAs (Decidable (a ≤ b))

/-- JS `buffer.slice(s, e)` for `0 ≤ s` and `e` either a number `≥ s` or
`Infinity` (`none`): the bytes from index `s` (inclusive) to `e`
(exclusive), clamped to the buffer. -/
def bufSlice (b : List Nat) (s : Nat) (e : Option Nat) : List Nat :=
  match e with
  | none => b.drop s
  | some e => (b.take e).drop s

/-- JS `Buffer.concat(list, totalLength)`: the concatenation, truncated or
zero-filled to exactly `totalLength` bytes. -/
def bufConcat (bufs : List (List Nat)) (totalLength : Nat) : List Nat :=
  (bufs.flatten.take totalLength) ++ List.replicate (totalLength - bufs.flatten.length) 0

/-- `end` offset of the last ledger entry, `0` for the empty ledger
(the body of `_getCurrentEndOffset`, parametrised by the chunk list so the
eviction loop can reuse it). -/
def lastEndOffset (l : List Chunk) : Nat :=
  match l.getLast? with
  | none => 0
  | some c => c.«end»

/-- the body of `size()`: `0` if the ledger is empty, else
`last.end - first.start`. -/
def chunksSize (l : List Chunk) : Nat :=
  match l with
  | [] => 0
  | first :: _ => lastEndOffset l - first.start

namespace StreamBuffer

/-- the constructor: empty ledger, not ended, not destroyed, no error,
seek `0`.  `options.maxSize || Infinity` maps falsy inputs (absent or `0`)
to `Infinity`; likewise for `maxBufferSize`. -/
def new (maxSize maxBufferSize : Option Nat) : StreamBuffer :=
  { _chunks := []
    _ended := false
    _destroyed := false
    _error := none
    _seek := some 0
    _maxSize := match maxSize with
      | some 0 => none
      | x => x
    _maxBufferSize := match maxBufferSize with
      | some 0 => none
      | x => x }

/-- `_getCurrentEndOffset()`: `0` if no chunks, else the last chunk's `end`. -/
def _getCurrentEndOffset (s : StreamBuffer) : Nat :=
  lastEndOffset s._chunks

/-- `size()`: `0` if no chunks, else `last.end - first.start`. -/
def size (s : StreamBuffer) : Nat :=
  chunksSize s._chunks

/-- the eviction loop of `_appendChunk`:
`while (chunks.length > 1 && size > maxSize) dropChunk()`, where
`_dropChunk` shifts the first chunk off the ledger. -/
def evictChunks (maxSize : Option Nat) : List Chunk → List Chunk
  | [] => []
  | [c] => [c]
  | c₁ :: c₂ :: rest =>
    if gtInfB (chunksSize (c₁ :: c₂ :: rest)) maxSize then
      evictChunks maxSize (c₂ :: rest)
    else
      c₁ :: c₂ :: rest

/-- `_appendChunk(chunk)`: push `{ chunk, end, start }` with
`start = currentEnd`, `end = start + chunk.length`, then evict from the
front while more than one chunk remains and size exceeds `maxSize`.
(The `resize` event and the waking of waiters carry no state and are not
modelled.) -/
def _appendChunk (s : StreamBuffer) (chunk : List Nat) : StreamBuffer :=
  let start := s._getCurrentEndOffset
  let e := start + chunk.length
  { s with _chunks := evictChunks s._maxSize (s._chunks ++ [⟨chunk, e, start⟩]) }

/-- `_write(chunk, encoding, callback)`: `try { _appendChunk } catch`,
reporting any thrown error through the callback.  `_appendChunk` is total,
so the error branch is dead code; the `Except` result mirrors the
try/catch structure of the source. -/
def _write (s : StreamBuffer) (chunk : List Nat) : Except Err StreamBuffer :=
  .ok (s._appendChunk chunk)

/-- `_destroy(error, callback)`: store the given error (or the default
`Error('Stream destroyed!')`), mark destroyed, discard the ledger, wake
waiters. -/
def _destroy (s : StreamBuffer) (error : Option Err) : StreamBuffer :=
  { s with
    _destroyed := true
    _error := some (error.getD .streamDestroyed)
    _chunks := [] }

/-- `seek(newSeek)` with an argument (the setter): `Infinity` normalises to
`null`, and a `null` value resolves to `currentEnd` once the stream has
ended.  Here `none` stands for both `Infinity` and `null` (the source
collapses the former into the latter before any further use). -/
def seekSet (s : StreamBuffer) (newSeek : Option Nat) : StreamBuffer :=
  let ns := match newSeek with
    | none => if s._ended then some s._getCurrentEndOffset else none
    | some n => some n
  { s with _seek := ns }

/-- `_final(callback)`: mark ended, then `this.seek(this.seek())` to
resolve a `null` seek against the now-final length, then wake waiters. -/
def _final (s : StreamBuffer) : StreamBuffer :=
  let s := { s with _ended := true }
  s.seekSet s._seek

/-- `_getNextChunk(offset, end)`: the chunk-lookup primitive.
`.ok none` is the JS `null` ("not yet available"); `.ok (some bytes)` is a
returned slice; `.error` models a `throw`.  `end` is `none` for
`Infinity`. -/
def _getNextChunk (s : StreamBuffer) (offset : Nat) (endP : Option Nat) :
    Except Err (Option (List Nat)) :=
  if s._destroyed then
    .error (s._error.getD .nullError)
  else
    match s._chunks.find? (fun c => decide (offset < c.«end»)) with
    | none =>
      if s._ended then
        -- allow zero-length buffer at the very end
        if offset = s._getCurrentEndOffset ∧ (endP = none ∨ endP = some offset) then
          .ok (some [])
        else
          .error .outOfBounds
      else
        .ok none
    | some chunk =>
      if offset < chunk.start then
        .error .chunkGone
      else
        .ok (some (bufSlice chunk.chunk (offset - chunk.start)
          (endP.map (fun e => e - chunk.start))))

/-- outcome of one run of the `getBuffer` read loop. -/
inductive GBResult where
  /-- the loop finished; `Buffer.concat(chunks, currentPos - offset)`. -/
  | done (buf : List Nat)
  /-- a `throw` escaped the loop. -/
  | failed (e : Err)
  /-- `_getNextChunk` returned `null`: the call awaits
  `_newChunksAvailable` with this loop state. -/
  | suspended (currentPos : Nat) (endPos : Option Nat) (acc : List (List Nat))
  /-- fuel exhausted (an artefact of the embedding, never the code). -/
  | outOfFuel
  deriving DecidableEq, Repr

/-- the read loop of `getBuffer`:
`while (currentPos < endPos)` call `_getNextChunk`; on `null` await (here:
terminate `suspended`); on a slice push it, advance, and fail once
`currentPos - offset > maxBufferSize`; after a slice, if the stream has
ended and `endPos` is `Infinity`, reclamp `endPos` to `currentEnd`.
(The source also reclamps after an await; that branch terminates here, so
the reclamp is attached to the slice branch only.)  The loop condition is
checked before any fuel is spent, so a false condition needs no fuel. -/
def getBufferLoop (s : StreamBuffer) (offset : Nat) :
    Nat → Nat → Option Nat → List (List Nat) → GBResult
  | fuel, currentPos, endPos, chunks =>
    if ltInfB currentPos endPos then
      match fuel with
      | 0 => .outOfFuel
      | fuel + 1 =>
        match s._getNextChunk currentPos endPos with
        | .error e => .failed e
        | .ok none => .suspended currentPos endPos chunks
        | .ok (some chunk) =>
          let chunks := chunks ++ [chunk]
          let currentPos := currentPos + chunk.length
          if gtInfB (currentPos - offset) s._maxBufferSize then
            .failed .maxBufferSizeExceeded
          else
            let endPos := if s._ended ∧ endPos = none then
              some s._getCurrentEndOffset else endPos
            getBufferLoop s offset fuel currentPos endPos chunks
    else
      .done (bufConcat chunks (currentPos - offset))

/-- the synchronous prelude of `getBuffer(length, offset)`: normalise
`length` (`undefined`/`null` become `Infinity` = `none`) and `offset`
(`undefined`/`null` become the current seek); suspend
(`while (offset === null && !ended && !destroyed) await ...`) when the
seek is itself unknown on a live stream; otherwise compute
`currentPos = offset`, `endPos = offset + length` and advance the shared
seek to `endPos` before any read.  A `null` offset that survives the wait
loop (possible only on a destroyed store) behaves as `0` in JS arithmetic
and comparisons; `_getNextChunk` then throws before any strict comparison
against it, so `getD 0` is observationally faithful. -/
def getBufferPrelude (s : StreamBuffer) (length offset : Option Nat) :
    Option (StreamBuffer × Nat × Option Nat) :=
  let offset := match offset with
    | some o => some o
    | none => s._seek
  if offset = none ∧ s._ended = false ∧ s._destroyed = false then
    none
  else
    let off := offset.getD 0
    let endPos := length.map (fun l => off + l)
    some (s.seekSet endPos, off, endPos)

/-- `getBuffer(length, offset)` run until it returns, throws, or suspends:
the prelude (offset resolution and synchronous seek advance) followed by
the read loop.  `none` means the call suspended inside the
offset-resolution wait loop, before touching the seek; otherwise the
returned store reflects the seek advance and the `GBResult` the loop's
outcome. -/
def getBuffer (s : StreamBuffer) (length offset : Option Nat) (fuel : Nat) :
    Option (StreamBuffer × GBResult) :=
  match s.getBufferPrelude length offset with
  | none => none
  | some (s', currentPos, endPos) =>
    some (s', getBufferLoop s' currentPos fuel currentPos endPos [])

/-- one wake-up of the offset-resolution wait loop of `getBuffer`, in store
state `s`: `await ...; if (ended) offset = currentEnd` followed by the
re-check of `offset === null && !ended && !destroyed`.  `some o` means the
loop exited with resolved offset `o` (`o = none` only on a destroyed
store); `none` means the loop keeps waiting. -/
def getBufferAwaitOffset (s : StreamBuffer) : Option (Option Nat) :=
  if s._ended then some (some s._getCurrentEndOffset)
  else if s._destroyed then some none
  else none

end StreamBuffer

/-- the `{ chunk?, end?, start? }`-independent state of a
`StreamBufferReader` as built by `getStream`: its position range and
whether it was pre-destroyed at construction with an error. -/
structure StreamBufferReader where
  _currentPos : Nat
  _endPos : Option Nat
  destroyedWith : Option Err
  deriving DecidableEq, Repr

namespace StreamBuffer

/-- `getStream(length, offset)`: same `length`/`offset` normalisation as
`getBuffer`.  With an unresolved (`null`) offset it builds a zero-length
reader at `currentEnd` and pre-destroys it with `Error('out of bounds')`
unless the requested length is `0` or `Infinity`; with a concrete offset
it advances the shared seek to `offset + length` synchronously and
returns a reader over `[offset, endPos)`. -/
def getStream (s : StreamBuffer) (length offset : Option Nat) :
    StreamBuffer × StreamBufferReader :=
  let offset := match offset with
    | some o => some o
    | none => s._seek
  match offset with
  | none =>
    -- hacky way to get a valid zero-length stream
    let anyLoadedPoint := s._getCurrentEndOffset
    let result : StreamBufferReader :=
      { _currentPos := anyLoadedPoint
        _endPos := some anyLoadedPoint
        destroyedWith :=
          -- destroy stream, when no zero-length expected
          if length ≠ some 0 ∧ length ≠ none then some .streamOutOfBounds
          else none }
    (s, result)
  | some off =>
    let endPos := length.map (fun l => off + l)
    (s.seekSet endPos, { _currentPos := off, _endPos := endPos, destroyedWith := none })

/-- appending a whole list of chunks in order (repeated `_appendChunk`,
i.e. the effect of a sequence of writes). -/
def appendAll (s : StreamBuffer) : List (List Nat) → StreamBuffer
  | [] => s
  | c :: cs => appendAll (s._appendChunk c) cs

end StreamBuffer

/-- the ledger produced by appending `chunks` in order starting at absolute
offset `off`, with no eviction: contiguous entries in append order. -/
def buildLedger : List (List Nat) → Nat → List Chunk
  | [], _ => []
  | c :: cs, off => ⟨c, off + c.length, off⟩ :: buildLedger cs (off + c.length)

/-- the four 4-byte test chunks of `test/index.test.js`
(`createOpenTestStream`). -/
def testChunks : List (List Nat) :=
  [[0xBE, 0xEF, 0xFE, 0xED],
   [0x01, 0x23, 0x45, 0x67],
   [0x89, 0xAB, 0xCD, 0xEF],
   [0x11, 0x23, 0x32, 0x11]]

/-- `createTestStream()`: the four test chunks appended with default
options, then ended. -/
def testStream : StreamBuffer :=
  ((StreamBuffer.new none none).appendAll testChunks)._final

/-- `createTestStreamWithDroppedChunk()`: the four test chunks appended
with `maxSize = 12`, then ended — the first chunk is evicted. -/
def droppedStream : StreamBuffer :=
  ((StreamBuffer.new (some 12) none).appendAll testChunks)._final

/-- the `maxBufferSize = 6` scenario: 16 bytes appended, then ended. -/
def cappedStream : StreamBuffer :=
  ((StreamBuffer.new none (some 6)).appendAll testChunks)._final

/-- a `maxBufferSize = 6` store holding exactly 6 bytes, then ended. -/
def cappedExact : StreamBuffer :=
  ((StreamBuffer.new none (some 6)).appendAll [[1, 2, 3], [4, 5, 6]])._final

/-- the two-chunk `[BE EF FE ED]`, `[01 23 45 67]` scenario, ended. -/
def beefStream : StreamBuffer :=
  ((StreamBuffer.new none none).appendAll
    [[0xBE, 0xEF, 0xFE, 0xED], [0x01, 0x23, 0x45, 0x67]])._final

/-! ### Helper lemmas about the embedded operations -/

namespace StreamBuffer

@[simp] theorem appendChunk_ended (s : StreamBuffer) (c : List Nat) :
    (s._appendChunk c)._ended = s._ended := rfl

@[simp] theorem appendChunk_destroyed (s : StreamBuffer) (c : List Nat) :
    (s._appendChunk c)._destroyed = s._destroyed := rfl

@[simp] theorem appendChunk_maxSize (s : StreamBuffer) (c : List Nat) :
    (s._appendChunk c)._maxSize = s._maxSize := rfl

@[simp] theorem appendChunk_maxBufferSize (s : StreamBuffer) (c : List Nat) :
    (s._appendChunk c)._maxBufferSize = s._maxBufferSize := rfl

@[simp] theorem appendChunk_seek (s : StreamBuffer) (c : List Nat) :
    (s._appendChunk c)._seek = s._seek := rfl

@[simp] theorem seekSet_chunks (s : StreamBuffer) (n : Option Nat) :
    (s.seekSet n)._chunks = s._chunks := rfl

@[simp] theorem seekSet_ended (s : StreamBuffer) (n : Option Nat) :
    (s.seekSet n)._ended = s._ended := rfl

@[simp] theorem seekSet_destroyed (s : StreamBuffer) (n : Option Nat) :
    (s.seekSet n)._destroyed = s._destroyed := rfl

@[simp] theorem seekSet_maxSize (s : StreamBuffer) (n : Option Nat) :
    (s.seekSet n)._maxSize = s._maxSize := rfl

@[simp] theorem seekSet_maxBufferSize (s : StreamBuffer) (n : Option Nat) :
    (s.seekSet n)._maxBufferSize = s._maxBufferSize := rfl

@[simp] theorem final_chunks (s : StreamBuffer) : s._final._chunks = s._chunks := rfl

@[simp] theorem final_ended (s : StreamBuffer) : s._final._ended = true := rfl

@[simp] theorem final_destroyed (s : StreamBuffer) :
    s._final._destroyed = s._destroyed := rfl

@[simp] theorem final_maxSize (s : StreamBuffer) : s._final._maxSize = s._maxSize := rfl

@[simp] theorem final_maxBufferSize (s : StreamBuffer) :
    s._final._maxBufferSize = s._maxBufferSize := rfl

theorem appendAll_ended (cs : List (List Nat)) :
    ∀ s : StreamBuffer, (s.appendAll cs)._ended = s._ended := by
  induction cs with
  | nil => intro s; rfl
  | cons c cs ih => intro s; simpa [appendAll] using ih (s._appendChunk c)

theorem appendAll_destroyed (cs : List (List Nat)) :
    ∀ s : StreamBuffer, (s.appendAll cs)._destroyed = s._destroyed := by
  induction cs with
  | nil => intro s; rfl
  | cons c cs ih => intro s; simpa [appendAll] using ih (s._appendChunk c)

theorem appendAll_maxSize (cs : List (List Nat)) :
    ∀ s : StreamBuffer, (s.appendAll cs)._maxSize = s._maxSize := by
  induction cs with
  | nil => intro s; rfl
  | cons c cs ih => intro s; simpa [appendAll] using ih (s._appendChunk c)

theorem appendAll_maxBufferSize (cs : List (List Nat)) :
    ∀ s : StreamBuffer, (s.appendAll cs)._maxBufferSize = s._maxBufferSize := by
  induction cs with
  | nil => intro s; rfl
  | cons c cs ih => intro s; simpa [appendAll] using ih (s._appendChunk c)

end StreamBuffer

theorem lastEndOffset_concat (l : List Chunk) (c : Chunk) :
    lastEndOffset (l ++ [c]) = c.«end» := by
  simp [lastEndOffset]

/-- With an unbounded retention window the eviction loop never drops anything. -/
theorem evictChunks_none : ∀ l : List Chunk, StreamBuffer.evictChunks none l = l
  | [] => rfl
  | [_] => rfl
  | c₁ :: c₂ :: rest => by
    simp [StreamBuffer.evictChunks, gtInfB]

/-- The eviction loop leaves the last ledger entry in place. -/
theorem evictChunks_getLast? (m : Option Nat) :
    ∀ l : List Chunk, (StreamBuffer.evictChunks m l).getLast? = l.getLast?
  | [] => rfl
  | [_] => rfl
  | c₁ :: c₂ :: rest => by
    rw [StreamBuffer.evictChunks]
    by_cases h : gtInfB (chunksSize (c₁ :: c₂ :: rest)) m = true
    · rw [if_pos h, evictChunks_getLast? m (c₂ :: rest), List.getLast?_cons_cons]
    · rw [if_neg h]

theorem lastEndOffset_evictChunks (m : Option Nat) (l : List Chunk) :
    lastEndOffset (StreamBuffer.evictChunks m l) = lastEndOffset l := by
  rw [lastEndOffset, lastEndOffset, evictChunks_getLast?]

/-- When the eviction loop stops on a non-empty ledger, either a single
chunk remains or the size is within the window. -/
theorem evictChunks_bound (m : Option Nat) :
    ∀ l : List Chunk, l ≠ [] →
      (StreamBuffer.evictChunks m l).length = 1 ∨
        leInf (chunksSize (StreamBuffer.evictChunks m l)) m
  | [], h => absurd rfl h
  | [c], _ => Or.inl rfl
  | c₁ :: c₂ :: rest, _ => by
    rw [StreamBuffer.evictChunks]
    by_cases h : gtInfB (chunksSize (c₁ :: c₂ :: rest)) m = true
    · rw [if_pos h]
      exact evictChunks_bound m (c₂ :: rest) (by simp)
    · rw [if_neg h]
      refine Or.inr ?_
      cases m with
      | none => trivial
      | some k =>
        simp only [gtInfB, decide_eq_true_eq] at h
        exact Nat.le_of_not_lt h

/-- Appending a chunk extends the logical end of the stream by its length,
eviction or not. -/
theorem appendChunk_getCurrentEndOffset (s : StreamBuffer) (c : List Nat) :
    (s._appendChunk c)._getCurrentEndOffset = s._getCurrentEndOffset + c.length := by
  show lastEndOffset (StreamBuffer.evictChunks _ _) = _
  rw [lastEndOffset_evictChunks, lastEndOffset_concat]

/-- With no retention window, appending a list of chunks extends the ledger
by the contiguous entries `buildLedger`. -/
theorem appendAll_chunks_noEvict (cs : List (List Nat)) :
    ∀ s : StreamBuffer, s._maxSize = none →
      (s.appendAll cs)._chunks =
        s._chunks ++ buildLedger cs (lastEndOffset s._chunks) := by
  induction cs with
  | nil => intro s _; simp [StreamBuffer.appendAll, buildLedger]
  | cons c cs ih =>
    intro s hm
    rw [StreamBuffer.appendAll, ih (s._appendChunk c) (by simp [hm])]
    have hchunks : (s._appendChunk c)._chunks =
        s._chunks ++ [⟨c, lastEndOffset s._chunks + c.length, lastEndOffset s._chunks⟩] := by
      show StreamBuffer.evictChunks s._maxSize _ = _
      rw [hm, evictChunks_none]
      rfl
    rw [hchunks, lastEndOffset_concat, buildLedger]
    simp

theorem bufConcat_length (bufs : List (List Nat)) (n : Nat) :
    (bufConcat bufs n).length = n := by
  simp only [bufConcat, List.length_append, List.length_take, List.length_replicate]
  rcases Nat.le_total n bufs.flatten.length with h | h
  · rw [Nat.min_eq_left h]
    omega
  · rw [Nat.min_eq_right h]
    omega

theorem bufConcat_of_length_eq (bufs : List (List Nat)) (n : Nat)
    (h : bufs.flatten.length = n) : bufConcat bufs n = bufs.flatten := by
  subst h
  simp [bufConcat]

/-- `find?` skips a prefix on which the predicate is everywhere false. -/
theorem find?_append_of_forall_false (p : Chunk → Bool) :
    ∀ l₁ l₂ : List Chunk, (∀ c ∈ l₁, p c = false) →
      (l₁ ++ l₂).find? p = l₂.find? p
  | [], _, _ => rfl
  | a :: l₁, l₂, h => by
    rw [List.cons_append, List.find?_cons, h a (by simp),
      find?_append_of_forall_false p l₁ l₂ (fun c hc => h c (by simp [hc]))]

/-- Core read lemma: on a non-destroyed store with an unbounded per-read
cap whose ledger is `past ++ buildLedger tail p` — everything in `past`
ending at or before the read position `p` — the `getBuffer` loop reading
up to `p + |tail|` returns the accumulated bytes followed by the
concatenation of `tail`. -/
theorem getBufferLoop_concat (s : StreamBuffer)
    (hd : s._destroyed = false) (hmb : s._maxBufferSize = none)
    (tail : List (List Nat)) :
    ∀ (past : List Chunk) (p offset : Nat) (acc : List (List Nat)) (fuel : Nat),
      s._chunks = past ++ buildLedger tail p →
      (∀ c ∈ past, c.«end» ≤ p) →
      offset ≤ p →
      acc.flatten.length = p - offset →
      tail.length ≤ fuel →
      StreamBuffer.getBufferLoop s offset fuel p (some (p + tail.flatten.length)) acc
        = .done (acc.flatten ++ tail.flatten) := by
  induction tail with
  | nil =>
    intro past p offset acc fuel hchunks hpast hop hacc hfuel
    rw [StreamBuffer.getBufferLoop.eq_def]
    simp only [List.flatten_nil, Nat.add_zero, List.append_nil]
    rw [if_neg (by simp [ltInfB])]
    rw [bufConcat_of_length_eq acc (p - offset) hacc]
  | cons c cs ih =>
    intro past p offset acc fuel hchunks hpast hop hacc hfuel
    by_cases hc : c = []
    · subst hc
      have hgoal := ih (past ++ [⟨([] : List Nat), p, p⟩]) p offset acc fuel
        (by rw [hchunks, buildLedger]; simp)
        (by
          intro ch hch
          rcases List.mem_append.mp hch with h | h
          · exact hpast ch h
          · simp at h
            subst h
            simp)
        hop hacc (by simpa using Nat.le_of_succ_le hfuel)
      simpa using hgoal
    · have hlen : 0 < c.length := List.length_pos.mpr hc
      cases fuel with
      | zero => simp at hfuel
      | succ f =>
        have hfind : s._chunks.find? (fun ch => decide (p < ch.«end»))
            = some ⟨c, p + c.length, p⟩ := by
          rw [hchunks, buildLedger,
            find?_append_of_forall_false _ past _
              (fun ch hch => by simp [Nat.not_lt.mpr (hpast ch hch)]),
            List.find?_cons]
          have hp : decide (p < Chunk.«end» ⟨c, p + c.length, p⟩) = true := by
            simp only [decide_eq_true_eq]
            omega
          rw [hp]
        have hnext : s._getNextChunk p (some (p + (c :: cs).flatten.length))
            = .ok (some c) := by
          rw [StreamBuffer._getNextChunk, if_neg (by simp [hd]), hfind]
          dsimp only
          rw [if_neg (Nat.lt_irrefl p)]
          simp only [bufSlice, Option.map_some', Nat.add_sub_cancel_left, Nat.sub_self,
            List.drop_zero, List.flatten_cons, List.length_append]
          rw [List.take_of_length_le (Nat.le_add_right _ _)]
        rw [StreamBuffer.getBufferLoop.eq_def]
        dsimp only
        rw [if_pos (by simp only [ltInfB, List.flatten_cons, List.length_append,
          decide_eq_true_eq]; omega)]
        rw [hnext]
        dsimp only
        rw [if_neg (by simp [gtInfB, hmb])]
        rw [if_neg (by simp)]
        have harith : p + (c :: cs).flatten.length
            = (p + c.length) + cs.flatten.length := by
          simp only [List.flatten_cons, List.length_append]
          omega
        rw [harith]
        have hgoal := ih (past ++ [⟨c, p + c.length, p⟩]) (p + c.length) offset
          (acc ++ [c]) f
          (by rw [hchunks, buildLedger]; simp)
          (by
            intro ch hch
            rcases List.mem_append.mp hch with h | h
            · exact Nat.le_trans (hpast ch h) (Nat.le_add_right _ _)
            · simp at h
              subst h
              simp)
          (Nat.le_trans hop (Nat.le_add_right _ _))
          (by
            rw [List.flatten_append]
            simp only [List.flatten_cons, List.flatten_nil, List.append_nil,
              List.length_append]
            omega)
          (by simpa using Nat.le_of_succ_le_succ hfuel)
        rw [hgoal]
        simp [List.flatten_append]

theorem leInf_none (a : Nat) : leInf a none := trivial

theorem leInf_some {a b : Nat} : leInf a (some b) ↔ a ≤ b := Iff.rfl

/-- The `getBuffer` loop checks the accumulated byte count against the cap
after every slice: whenever it completes, the returned buffer is within
the cap (given that the bytes already accumulated on entry are). -/
theorem getBufferLoop_done_cap (s : StreamBuffer) (offset : Nat) :
    ∀ (fuel cp : Nat) (ep : Option Nat) (acc : List (List Nat)) (buf : List Nat),
      leInf (cp - offset) s._maxBufferSize →
      StreamBuffer.getBufferLoop s offset fuel cp ep acc = .done buf →
      leInf buf.length s._maxBufferSize := by
  intro fuel
  induction fuel with
  | zero =>
    intro cp ep acc buf hle h
    rw [StreamBuffer.getBufferLoop.eq_def] at h
    dsimp only at h
    by_cases hcond : ltInfB cp ep = true
    · rw [if_pos hcond] at h
      simp at h
    · rw [if_neg hcond] at h
      injection h with h2
      rw [← h2, bufConcat_length]
      exact hle
  | succ f ih =>
    intro cp ep acc buf hle h
    rw [StreamBuffer.getBufferLoop.eq_def] at h
    dsimp only at h
    by_cases hcond : ltInfB cp ep = true
    · rw [if_pos hcond] at h
      cases hg : s._getNextChunk cp ep with
      | error e => rw [hg] at h; simp at h
      | ok oc =>
        cases oc with
        | none => rw [hg] at h; simp at h
        | some chunk =>
          rw [hg] at h
          dsimp only at h
          by_cases hcap : gtInfB (cp + chunk.length - offset) s._maxBufferSize = true
          · rw [if_pos hcap] at h
            simp at h
          · rw [if_neg hcap] at h
            refine ih (cp + chunk.length) _ _ buf ?_ h
            cases hmb : s._maxBufferSize with
            | none => exact leInf_none _
            | some m =>
              rw [hmb] at hcap
              simp only [gtInfB, decide_eq_true_eq] at hcap
              exact leInf_some.mpr (Nat.le_of_not_lt hcap)
    · rw [if_neg hcond] at h
      injection h with h2
      rw [← h2, bufConcat_length]
      exact hle

namespace StreamBuffer

/-- `getBuffer` with an explicit concrete offset: the prelude never
suspends; the seek advances to `offset + length` and the loop starts at
`offset`. -/
theorem getBuffer_some_offset (s : StreamBuffer) (len : Option Nat)
    (off : Nat) (fuel : Nat) :
    s.getBuffer len (some off) fuel
      = some (s.seekSet (len.map (fun l => off + l)),
          (s.seekSet (len.map (fun l => off + l))).getBufferLoop off fuel off
            (len.map (fun l => off + l)) []) := by
  simp [StreamBuffer.getBuffer, StreamBuffer.getBufferPrelude]

/-- `getBuffer` with a defaulted offset resolved from a concrete seek:
same unfolding, reading the offset from `_seek`. -/
theorem getBuffer_default_offset (s : StreamBuffer) (len : Option Nat)
    (off : Nat) (fuel : Nat) (h : s._seek = some off) :
    s.getBuffer len none fuel
      = some (s.seekSet (len.map (fun l => off + l)),
          (s.seekSet (len.map (fun l => off + l))).getBufferLoop off fuel off
            (len.map (fun l => off + l)) []) := by
  simp [StreamBuffer.getBuffer, StreamBuffer.getBufferPrelude, h]

/-- `getBuffer` with a defaulted offset while the seek is unknown on a
live stream suspends in the offset-resolution wait loop. -/
theorem getBuffer_unknown_offset (s : StreamBuffer) (len : Option Nat)
    (fuel : Nat) (hseek : s._seek = none) (he : s._ended = false)
    (hd : s._destroyed = false) :
    s.getBuffer len none fuel = none := by
  simp [StreamBuffer.getBuffer, StreamBuffer.getBufferPrelude, hseek, he, hd]

end StreamBuffer

/-! ### The claims -/

/-- C1: for every sequence of chunks appended to a store with unbounded
retention and then ended, a bulk read of the full range returns the
concatenation of the appended chunks in append order; concretely, after
appending `[BE EF FE ED]` and `[01 23 45 67]` and ending, `getBuffer(2,1)`
returns `[EF FE]` and `getBuffer(8,0)` returns the full 8 bytes. -/
theorem claim_C1_bulk_read_concat :
    (∀ cs : List (List Nat),
      (StreamBuffer.getBuffer (((StreamBuffer.new none none).appendAll cs)._final)
          (some cs.flatten.length) (some 0) (cs.length + 1)).map (fun r => r.2)
        = some (.done cs.flatten)) ∧
    (StreamBuffer.getBuffer beefStream (some 2) (some 1) 3).map (fun r => r.2)
      = some (.done [0xEF, 0xFE]) ∧
    (StreamBuffer.getBuffer beefStream (some 8) (some 0) 3).map (fun r => r.2)
      = some (.done [0xBE, 0xEF, 0xFE, 0xED, 0x01, 0x23, 0x45, 0x67]) := by
  refine ⟨?_, by decide, by decide⟩
  intro cs
  have hmax : (StreamBuffer.new none none)._maxSize = none := rfl
  have hch : (((StreamBuffer.new none none).appendAll cs)._final)._chunks
      = buildLedger cs 0 := by
    rw [StreamBuffer.final_chunks, appendAll_chunks_noEvict cs _ hmax]
    rfl
  have hd2 : (((StreamBuffer.new none none).appendAll cs)._final)._destroyed
      = false := by
    rw [StreamBuffer.final_destroyed, StreamBuffer.appendAll_destroyed]
    rfl
  have hmb2 : (((StreamBuffer.new none none).appendAll cs)._final)._maxBufferSize
      = none := by
    rw [StreamBuffer.final_maxBufferSize, StreamBuffer.appendAll_maxBufferSize]
    rfl
  rw [StreamBuffer.getBuffer_some_offset]
  simp only [Option.map_some']
  refine congrArg some ?_
  have h := getBufferLoop_concat
    ((((StreamBuffer.new none none).appendAll cs)._final).seekSet
      ((some cs.flatten.length).map (fun l => 0 + l)))
    (by simpa using hd2) (by simpa using hmb2) cs [] 0 0 [] (cs.length + 1)
    (by simpa using hch) (by intro c hc; simp at hc) (Nat.le_refl 0) rfl
    (Nat.le_succ _)
  simpa using h

/-- C2 counterexample: appending a zero-length chunk to a fresh store
leaves a one-entry ledger whose size is `0`, refuting "size() equals 0
exactly when the ledger is empty". -/
theorem claim_C2_counterexample :
    ((StreamBuffer.new none none)._appendChunk []).size = 0 ∧
    ((StreamBuffer.new none none)._appendChunk [])._chunks.length = 1 := by
  decide

/-- C2 (amended): after every append either exactly one chunk remains or
`size()` is at most `maxSize`; and `size()` is 0 whenever the ledger is
empty (the converse fails: a ledger of zero-length chunks also has size
0). -/
theorem claim_C2_append_invariant :
    (∀ (s : StreamBuffer) (c : List Nat),
      (s._appendChunk c)._chunks.length = 1 ∨
        leInf (s._appendChunk c).size s._maxSize) ∧
    (∀ s : StreamBuffer, s._chunks = [] → s.size = 0) := by
  constructor
  · intro s c
    exact evictChunks_bound s._maxSize
      (s._chunks ++ [⟨c, s._getCurrentEndOffset + c.length, s._getCurrentEndOffset⟩])
      (by simp)
  · intro s h
    simp [StreamBuffer.size, h, chunksSize]

theorem claim_C2_witness : (StreamBuffer.new none none).size = 0 :=
  claim_C2_append_invariant.2 (StreamBuffer.new none none) rfl

/-- C3: after the stream has ended (and absent destruction), a locate at
the final end offset with an empty or unbounded range returns an empty
slice, while any locate at or beyond the final end offset requesting a
non-empty bounded range fails with `OutOfBounds`. -/
theorem claim_C3_end_of_stream_locate (s : StreamBuffer)
    (hwf : ∀ c ∈ s._chunks, c.«end» ≤ s._getCurrentEndOffset)
    (he : s._ended = true) (hd : s._destroyed = false) :
    (s._getNextChunk s._getCurrentEndOffset none = .ok (some []) ∧
      s._getNextChunk s._getCurrentEndOffset (some s._getCurrentEndOffset)
        = .ok (some [])) ∧
    (∀ off e, s._getCurrentEndOffset ≤ off → off < e →
      s._getNextChunk off (some e) = .error .outOfBounds) := by
  have hfind : ∀ off, s._getCurrentEndOffset ≤ off →
      s._chunks.find? (fun c => decide (off < c.«end»)) = none := by
    intro off hoff
    refine List.find?_eq_none.mpr fun c hc => ?_
    simp only [decide_eq_true_eq]
    exact Nat.not_lt.mpr (Nat.le_trans (hwf c hc) hoff)
  refine ⟨⟨?_, ?_⟩, ?_⟩
  · simp [StreamBuffer._getNextChunk, hd, hfind _ (Nat.le_refl _), he]
  · simp [StreamBuffer._getNextChunk, hd, hfind _ (Nat.le_refl _), he]
  · intro off e hoff hlt
    simp [StreamBuffer._getNextChunk, hd, hfind off hoff, he]
    intro h1
    omega

theorem claim_C3_witness :
    (testStream._getNextChunk 16 none = .ok (some []) ∧
      testStream._getNextChunk 16 (some 16) = .ok (some [])) ∧
    testStream._getNextChunk 16 (some 17) = .error .outOfBounds := by
  have h := claim_C3_end_of_stream_locate testStream (by decide) (by decide) (by decide)
  exact ⟨h.1, h.2 16 17 (by decide) (by decide)⟩

/-- C4: a non-destroyed locate at an offset strictly below the first
retained chunk's start fails with `ChunkEvicted` (`chunk gone!`);
concretely, with `maxSize = 12`, four 4-byte appends and an end,
`getBuffer()` from seek 0 fails that way because the first chunk was
evicted. -/
theorem claim_C4_evicted_locate :
    (∀ (s : StreamBuffer) (c0 : Chunk) (rest : List Chunk) (off : Nat)
        (endP : Option Nat),
      s._destroyed = false → s._chunks = c0 :: rest → c0.start ≤ c0.«end» →
      off < c0.start → s._getNextChunk off endP = .error .chunkGone) ∧
    (StreamBuffer.getBuffer droppedStream none none 9).map (fun r => r.2)
      = some (.failed .chunkGone) := by
  constructor
  · intro s c0 rest off endP hd hch hwf hoff
    have hfind : s._chunks.find? (fun c => decide (off < c.«end»)) = some c0 := by
      rw [hch, List.find?_cons]
      have hp : decide (off < c0.«end») = true := by
        simp only [decide_eq_true_eq]
        omega
      rw [hp]
    simp [StreamBuffer._getNextChunk, hd, hfind, hoff]
  · decide

theorem claim_C4_witness : droppedStream._getNextChunk 0 none = .error .chunkGone :=
  claim_C4_evicted_locate.1 droppedStream ⟨[0x01, 0x23, 0x45, 0x67], 8, 4⟩
    [⟨[0x89, 0xAB, 0xCD, 0xEF], 12, 8⟩, ⟨[0x11, 0x23, 0x32, 0x11], 16, 12⟩]
    0 none (by decide) (by decide) (by decide) (by decide)

/-- C5: after `destroy(error)` the ledger is empty and every locate, for
every offset and limit, fails with the stored teardown error (the given
error, or the generic default when none was given). -/
theorem claim_C5_destroy_discards_and_fails :
    ∀ (s : StreamBuffer) (error : Option Err),
      (s._destroy error)._chunks = [] ∧
      ∀ (off : Nat) (endP : Option Nat),
        (s._destroy error)._getNextChunk off endP
          = .error (error.getD .streamDestroyed) := by
  intro s error
  refine ⟨rfl, fun off endP => ?_⟩
  simp [StreamBuffer._getNextChunk, StreamBuffer._destroy]

/-- When the prelude of a `getBuffer` call proceeds, the store it hands to
the read loop differs from the original only in the seek, so the per-read
cap is unchanged. -/
theorem getBufferPrelude_maxBufferSize (s : StreamBuffer) (len off : Option Nat)
    (s₂ : StreamBuffer) (cp : Nat) (ep : Option Nat)
    (h : s.getBufferPrelude len off = some (s₂, cp, ep)) :
    s₂._maxBufferSize = s._maxBufferSize := by
  simp only [StreamBuffer.getBufferPrelude] at h
  split at h
  · exact Option.noConfusion h
  · rw [Option.some.injEq] at h
    injection h with h1 h2
    rw [← h1]
    exact StreamBuffer.seekSet_maxBufferSize s _

/-- C6: a bulk read never completes with more bytes than `maxBufferSize`
(accumulating exactly `maxBufferSize` bytes succeeds); concretely, with
`maxBufferSize = 6`, a 6-byte completed stream is read in full while a
16-byte one fails with `BufferCapExceeded`. -/
theorem claim_C6_buffer_cap :
    (∀ (s : StreamBuffer) (len off : Option Nat) (fuel : Nat)
        (s' : StreamBuffer) (buf : List Nat),
      s.getBuffer len off fuel = some (s', .done buf) →
      leInf buf.length s._maxBufferSize) ∧
    (StreamBuffer.getBuffer cappedExact none none 9).map (fun r => r.2)
      = some (.done [1, 2, 3, 4, 5, 6]) ∧
    (StreamBuffer.getBuffer cappedStream none none 9).map (fun r => r.2)
      = some (.failed .maxBufferSizeExceeded) := by
  refine ⟨?_, by decide, by decide⟩
  intro s len off fuel s' buf h
  simp only [StreamBuffer.getBuffer] at h
  cases hp : s.getBufferPrelude len off with
  | none =>
    rw [hp] at h
    exact Option.noConfusion h
  | some t =>
    obtain ⟨s₂, cp, ep⟩ := t
    rw [hp] at h
    dsimp only at h
    rw [Option.some.injEq] at h
    injection h with h1 h2
    have h0 : leInf (cp - cp) s₂._maxBufferSize := by
      rw [Nat.sub_self]
      cases s₂._maxBufferSize with
      | none => exact leInf_none _
      | some m => exact leInf_some.mpr (Nat.zero_le m)
    have hcap := getBufferLoop_done_cap s₂ cp fuel cp ep [] buf h0 h2
    rw [← getBufferPrelude_maxBufferSize s len off s₂ cp ep hp]
    exact hcap

theorem claim_C6_witness :
    leInf (([1, 2, 3, 4, 5, 6] : List Nat).length) cappedExact._maxBufferSize :=
  claim_C6_buffer_cap.1 cappedExact none none 9 (cappedExact.seekSet none)
    [1, 2, 3, 4, 5, 6] (by decide)

/-- C7: a read call with a resolved concrete offset advances the shared
seek to the read's target end — `offset + length`, normalised to unknown
when unbounded and the stream is still open — at call time, for
`getBuffer` and `getStream` alike, whatever the read loop later does;
consequently on a 16-byte completed stream `getBuffer(8)` from seek 0
returns the first 8 bytes and leaves the seek at 8, and a second
default-offset `getBuffer(2)` returns bytes `[8,10)`. -/
theorem claim_C7_cursor_advance :
    (∀ (s : StreamBuffer) (len : Option Nat) (off fuel : Nat),
      (s.getBuffer len (some off) fuel).map (fun r => r.1._seek)
        = some (match len with
            | some l => some (off + l)
            | none => if s._ended = true then some s._getCurrentEndOffset
                else none)) ∧
    (∀ (s : StreamBuffer) (len : Option Nat) (off fuel : Nat),
      s._seek = some off →
      (s.getBuffer len none fuel).map (fun r => r.1._seek)
        = some (match len with
            | some l => some (off + l)
            | none => if s._ended = true then some s._getCurrentEndOffset
                else none)) ∧
    (∀ (s : StreamBuffer) (len : Option Nat) (off : Nat),
      ((s.getStream len (some off)).1)._seek
        = match len with
          | some l => some (off + l)
          | none => if s._ended = true then some s._getCurrentEndOffset
              else none) ∧
    (∀ (s : StreamBuffer) (len : Option Nat) (off : Nat),
      s._seek = some off →
      ((s.getStream len none).1)._seek
        = match len with
          | some l => some (off + l)
          | none => if s._ended = true then some s._getCurrentEndOffset
              else none) ∧
    (∃ s' : StreamBuffer,
      StreamBuffer.getBuffer testStream (some 8) none 9
        = some (s', .done [0xBE, 0xEF, 0xFE, 0xED, 0x01, 0x23, 0x45, 0x67]) ∧
      s'._seek = some 8 ∧
      (StreamBuffer.getBuffer s' (some 2) none 9).map (fun r => r.2)
        = some (.done [0x89, 0xAB])) := by
  refine ⟨?_, ?_, ?_, ?_, ?_⟩
  · intro s len off fuel
    rw [StreamBuffer.getBuffer_some_offset]
    cases len <;> rfl
  · intro s len off fuel h
    rw [StreamBuffer.getBuffer_default_offset s len off fuel h]
    cases len <;> rfl
  · intro s len off
    cases len <;> rfl
  · intro s len off h
    simp only [StreamBuffer.getStream, h]
    cases len <;> rfl
  · exact ⟨testStream.seekSet (some 8), by decide, by decide, by decide⟩

theorem claim_C7_witness :
    (StreamBuffer.getBuffer testStream (some 8) none 9).map (fun r => r.1._seek)
      = some (some (0 + 8)) :=
  claim_C7_cursor_advance.2.1 testStream (some 8) 0 9 (by decide)

/-- C8 counterexample: a virgin store has seek `0`, not an unknown seek,
so an offset-less `getBuffer` resolves immediately to the concrete offset
`0` (setting the seek and suspending in the data loop at position 0)
instead of suspending with an unresolved offset. -/
theorem claim_C8_counterexample :
    (StreamBuffer.new none none)._seek = some 0 ∧
    StreamBuffer.getBuffer (StreamBuffer.new none none) none none 3
      = some ((StreamBuffer.new none none).seekSet none,
          .suspended 0 none []) := by
  decide

/-- C8 (amended): an offset-less bulk read suspends before reading from
any concrete offset only when the stored seek is itself unknown on a live
stream (the virgin store's seek is 0, not unknown); such a suspended read
resolves its offset to `currentEnd` exactly when the stream ends, and a
bare append leaves it waiting. -/
theorem claim_C8_unknown_seek_suspends :
    (∀ (s : StreamBuffer) (len : Option Nat) (fuel : Nat),
      s._seek = none → s._ended = false → s._destroyed = false →
      s.getBuffer len none fuel = none) ∧
    (∀ s : StreamBuffer, s._ended = true →
      s.getBufferAwaitOffset = some (some s._getCurrentEndOffset)) ∧
    (∀ s : StreamBuffer, s._ended = false → s._destroyed = false →
      s.getBufferAwaitOffset = none) := by
  refine ⟨?_, ?_, ?_⟩
  · intro s len fuel h1 h2 h3
    exact StreamBuffer.getBuffer_unknown_offset s len fuel h1 h2 h3
  · intro s h
    simp [StreamBuffer.getBufferAwaitOffset, h]
  · intro s h1 h2
    simp [StreamBuffer.getBufferAwaitOffset, h1, h2]

theorem claim_C8_witness :
    StreamBuffer.getBuffer ((StreamBuffer.new none none).seekSet none) none none 4
      = none :=
  claim_C8_unknown_seek_suspends.1 ((StreamBuffer.new none none).seekSet none)
    none 4 rfl rfl rfl

/-- C9 counterexample: on a destroyed store (stored error present), the
append primitive does not raise the stored error — it succeeds. -/
theorem claim_C9_counterexample :
    ((StreamBuffer.new none none)._destroy none)._error = some .streamDestroyed ∧
    ((((StreamBuffer.new none none)._destroy none)._write [37]) : Except Err StreamBuffer).isOk
      = true := by
  decide

/-- C9 (amended): the append primitive never fails — on Open, Ended and
Destroyed stores alike it appends the chunk, extending the logical end by
the chunk's length (rejection of writes after destruction, like after
end, is the stream wrapper's job, not this primitive's). -/
theorem claim_C9_append_never_fails :
    ∀ (s : StreamBuffer) (c : List Nat), ∃ s' : StreamBuffer,
      s._write c = .ok s' ∧ s'._destroyed = s._destroyed ∧
      s'._getCurrentEndOffset = s._getCurrentEndOffset + c.length := by
  intro s c
  exact ⟨s._appendChunk c, rfl, rfl, appendChunk_getCurrentEndOffset s c⟩

/-- C10: a zero-length bulk read at any concrete offset on a non-destroyed
store returns an empty buffer without error (the read loop never runs, so
the ledger is never consulted) — even at evicted offsets and offsets
beyond the final end, where the matching non-empty reads fail with
`ChunkEvicted` resp. `OutOfBounds`. -/
theorem claim_C10_zero_length_reads :
    (∀ (s : StreamBuffer) (k fuel : Nat), s._destroyed = false →
      s.getBuffer (some 0) (some k) fuel
        = some (s.seekSet (some k), .done [])) ∧
    ((StreamBuffer.getBuffer droppedStream (some 0) (some 0) 5).map (fun r => r.2)
        = some (.done []) ∧
      (StreamBuffer.getBuffer droppedStream (some 1) (some 0) 5).map (fun r => r.2)
        = some (.failed .chunkGone)) ∧
    ((StreamBuffer.getBuffer testStream (some 0) (some 99) 5).map (fun r => r.2)
        = some (.done []) ∧
      (StreamBuffer.getBuffer testStream (some 1) (some 16) 5).map (fun r => r.2)
        = some (.failed .outOfBounds)) := by
  refine ⟨?_, ⟨by decide, by decide⟩, ⟨by decide, by decide⟩⟩
  intro s k fuel hd
  rw [StreamBuffer.getBuffer_some_offset]
  simp only [Option.map_some', Nat.add_zero]
  rw [StreamBuffer.getBufferLoop.eq_def]
  dsimp only
  rw [if_neg (by simp [ltInfB])]
  simp [bufConcat, Nat.sub_self]

theorem claim_C10_witness :
    StreamBuffer.getBuffer testStream (some 0) (some 3) 0
      = some (testStream.seekSet (some 3), .done []) :=
  claim_C10_zero_length_reads.1 testStream 3 0 (by decide)
